import Mathlib

/-!
Travel Destination Selector — shallow embedding.

A shallow embedding of the matching-and-ranking core of `src/travel.py`
(the body of `main`, lines 191–234, together with the fixed question data
at the top of the file), and proofs of the specified properties.

The catalog rows come from an external `Destinations` class that is not
part of this repository's sources; a destination is therefore modelled as
a record of the values returned by its getters (`get_continent`,
`get_crime`, `get_cost`, `is_kid_friendly`, `get_climate`,
`get_season_factor`, `get_interest_score`, `get_name`).  The closed
enumerations mirror the fixed option lists `CONTINENT_INPUT`,
`CRIME_INPUT`, `SEASON_INPUT` and `INTEREST_INPUT`: the `.title()` /
`.lower()` canonicalisations applied by the code to continent, crime and
season values are absorbed by representing those values as members of the
enumeration.  Climate and cost are kept as raw strings because the code
compares them as strings (`responses['climate'].lower() !=
destination.get_climate()`, `len(destination.get_cost()) >
len(responses['cost'])`), and two of the claims are precisely about those
string-level comparisons.  Numeric season factors and interest scores are
modelled as integers.
-/

namespace Travel

/-- The continents of `CONTINENT_INPUT` (travel.py line 14). -/
inductive Continent where
  | asia
  | africa
  | northAmerica
  | southAmerica
  | europe
  | oceania
  | antarctica
deriving DecidableEq, Repr

/-- The crime levels of `CRIME_INPUT` (travel.py line 22), in list order. -/
inductive Crime where
  | low
  | average
  | high
deriving DecidableEq, Repr

/-- `CRIME_INPUT[1].index(c)`: position of a crime level in the list
`['Low', 'Average', 'High']` (travel.py lines 200–201). -/
def crimeIndex : Crime → Nat
  | .low => 0
  | .average => 1
  | .high => 2

/-- The seasons of `SEASON_INPUT` (travel.py line 28). -/
inductive Season where
  | spring
  | summer
  | autumn
  | winter
deriving DecidableEq, Repr

/-- The interest keys of `INTEREST_INPUT` (travel.py lines 43–51). -/
inductive InterestKey where
  | sports
  | wildlife
  | nature
  | historical
  | cuisine
  | adventure
  | beach
deriving DecidableEq, Repr

/-- The interest keys in the order of `INTEREST_INPUT`, which is the
insertion (hence iteration) order of the `interests` dict built at
travel.py lines 186–187. -/
def allInterestKeys : List InterestKey :=
  [.sports, .wildlife, .nature, .historical, .cuisine, .adventure, .beach]

instance : Fintype Season where
  elems := ⟨([.spring, .summer, .autumn, .winter] : List Season), by decide⟩
  complete := by intro x; cases x <;> decide

instance : Fintype InterestKey where
  elems := ⟨(allInterestKeys : List InterestKey), by decide⟩
  complete := by intro x; cases x <;> decide

/-- One catalog row, as seen through the getters used by `main`. -/
structure Destination where
  name : String
  continent : Continent
  crimeLevel : Crime
  cost : String
  kidFriendly : Bool
  climate : String
  seasonFactor : Season → Int
  interestScore : InterestKey → Int
deriving DecidableEq

/-- The normalized answers collected by the question loop of `main`
(travel.py lines 166–188): the `responses` dict plus the `interests`
dict.  `kids` models `responses['kids'] == "Yes"`. -/
structure UserResponses where
  continents : List Continent
  cost : String
  crime : Crime
  kids : Bool
  seasons : List Season
  climate : String
  interests : InterestKey → Int
deriving DecidableEq

/-- Python's `str.lower()` on the ASCII strings this program handles:
lowercase every character. -/
def strLower (s : String) : String :=
  ⟨s.data.map Char.toLower⟩

/-- The five filter guards of the matching loop (travel.py lines
197–211), each written as the condition under which the guard does NOT
`continue`:
* line 197: `destination.get_continent().title() not in responses['continent']`;
* lines 200–201: crime list-index comparison;
* line 204: `len(destination.get_cost()) > len(responses['cost'])`;
* line 207: `responses['kids'] == "Yes" and not destination.is_kid_friendly()`;
* line 211: `responses['climate'].lower() != destination.get_climate()`. -/
def isEligible (d : Destination) (r : UserResponses) : Prop :=
  d.continent ∈ r.continents ∧
  crimeIndex d.crimeLevel ≤ crimeIndex r.crime ∧
  d.cost.length ≤ r.cost.length ∧
  (r.kids = true → d.kidFriendly = true) ∧
  strLower r.climate = d.climate

instance (d : Destination) (r : UserResponses) : Decidable (isEligible d r) := by
  unfold isEligible; infer_instance

/-- Python's `max` over a list: `None` (an exception in Python) on the
empty list, otherwise the left fold of binary `max` over the tail
starting from the head. -/
def pyMax : List Int → Option Int
  | [] => none
  | x :: xs => some (xs.foldl max x)

/-- `max(destination.get_season_factor(season.lower()) for season in
responses['season'])` (travel.py lines 219–222): `none` models the
`ValueError` Python raises when the season list is empty. -/
def seasonScore? (d : Destination) (seasons : List Season) : Option Int :=
  pyMax (seasons.map d.seasonFactor)

/-- `sum(response * destination.get_interest_score(key) for key, response
in interests.items())` (travel.py lines 225–228). -/
def interestScore (d : Destination) (r : UserResponses) : Int :=
  (allInterestKeys.map fun k => r.interests k * d.interestScore k).sum

/-- The composite score `season-max * interest-dot-product` computed at
travel.py lines 219–231, as a partial value: it is defined exactly when
the season maximum is. -/
def compositeScore? (d : Destination) (r : UserResponses) : Option Int :=
  (seasonScore? d r.seasons).map fun s => s * interestScore d r

/-- Total season score, agreeing with `seasonScore?` on non-empty season
lists (the well-formedness domain). -/
def seasonScore (d : Destination) : List Season → Int
  | [] => 0
  | s :: rest => rest.foldl (fun a t => max a (d.seasonFactor t)) (d.seasonFactor s)

/-- Total composite score, agreeing with `compositeScore?` on non-empty
season lists. -/
def compositeScore (d : Destination) (r : UserResponses) : Int :=
  seasonScore d r.seasons * interestScore d r

/-- One iteration of the matching loop (travel.py lines 194–234) acting
on the `match` accumulator.  `Except.error ()` models the uncaught
`ValueError` raised by `max` on an empty sequence; once raised it aborts
the run, which the fold models by absorbing. -/
def step (r : UserResponses) (acc : Except Unit (Option Destination))
    (d : Destination) : Except Unit (Option Destination) :=
  match acc with
  | .error e => .error e
  | .ok none => if isEligible d r then .ok (some d) else .ok none
  | .ok (some m) =>
    if isEligible d r then
      match seasonScore? m r.seasons, seasonScore? d r.seasons with
      | some prevSeason, some newSeason =>
        let prevScore := prevSeason * interestScore m r
        let score := newSeason * interestScore d r
        if score > prevScore then .ok (some d) else .ok (some m)
      | _, _ => .error ()
    else .ok (some m)

/-- The whole matching loop: left fold of `step` over the catalog with
`match = None` initially (travel.py lines 191–234).  `Except.ok none` is
the "no match" marker, `Except.ok (some d)` the selected destination. -/
def selectDestination (catalog : List Destination) (r : UserResponses) :
    Except Unit (Option Destination) :=
  catalog.foldl (step r) (.ok none)

/-- What the result-printing code at travel.py lines 238–241 shows to the
user: `print(match)` renders the `None` sentinel as the text `"None"`,
and otherwise `print(match.get_name())` shows the name. -/
def renderResult : Option Destination → String
  | none => "None"
  | some m => m.name

/-- A well-formed `UserResponses`: the multi-select answers are
non-empty.  (Totality of `interests` over the interest keys holds by
construction, the field being a function.) -/
def WellFormed (r : UserResponses) : Prop :=
  r.continents ≠ [] ∧ r.seasons ≠ []

instance (r : UserResponses) : Decidable (WellFormed r) := by
  unfold WellFormed; infer_instance

/-- The loop body stripped of its exceptional case, used to reason about
runs on well-formed responses (non-empty season list). -/
def pureStep (r : UserResponses) (acc : Option Destination) (d : Destination) :
    Option Destination :=
  if isEligible d r then
    match acc with
    | none => some d
    | some m => if compositeScore m r < compositeScore d r then some d else some m
  else acc

/-- The cost tiers offered by `COST_INPUT` (travel.py lines 17–20),
listed cheapest first, so that the list position of a tier is its ordinal
in the spec's cost-tier order. -/
def costTiers : List String :=
  ["$", "$$", "$$$"]

/-- A cost value actually offered by `COST_INPUT`. -/
def validCost (s : String) : Prop :=
  s = "$" ∨ s = "$$" ∨ s = "$$$"

instance (s : String) : Decidable (validCost s) := by
  unfold validCost; infer_instance

/-- Ordinal of a cost tier in the fixed cheapest-to-dearest order. -/
def costOrd (s : String) : Nat :=
  costTiers.indexOf s

instance : Fintype Continent where
  elems := ⟨([.asia, .africa, .northAmerica, .southAmerica, .europe, .oceania,
      .antarctica] : List Continent), by decide⟩
  complete := by intro x; cases x <;> decide

/-! ### Sample data used by the witness theorems -/

/-- A destination eligible under `rBase`. -/
def dAlpha : Destination :=
  { name := "Alpha", continent := .europe, crimeLevel := .low, cost := "$",
    kidFriendly := true, climate := "moderate",
    seasonFactor := fun _ => 2, interestScore := fun _ => 1 }

/-- Same filter data and scores as `dAlpha`, but a different name. -/
def dBeta : Destination :=
  { name := "Beta", continent := .europe, crimeLevel := .low, cost := "$",
    kidFriendly := true, climate := "moderate",
    seasonFactor := fun _ => 2, interestScore := fun _ => 1 }

/-- A destination on a continent `rBase` does not select. -/
def dGamma : Destination :=
  { name := "Gamma", continent := .asia, crimeLevel := .low, cost := "$",
    kidFriendly := true, climate := "moderate",
    seasonFactor := fun _ => 3, interestScore := fun _ => 2 }

/-- A concrete well-formed response set. -/
def rBase : UserResponses :=
  { continents := [.europe], cost := "$$", crime := .average, kids := true,
    seasons := [.summer], climate := "Moderate", interests := fun _ => 1 }

/-! ### Helper lemmas about `foldl max` and `pyMax` -/

theorem le_foldl_max (xs : List Int) (a : Int) : a ≤ xs.foldl max a := by
  induction xs generalizing a with
  | nil => exact le_refl a
  | cons x xs ih => exact le_trans (le_max_left a x) (ih (max a x))

theorem foldl_max_le_of_mem {x : Int} (xs : List Int) (a : Int) (hx : x ∈ xs) :
    x ≤ xs.foldl max a := by
  induction xs generalizing a with
  | nil => cases hx
  | cons y ys ih =>
    rcases List.mem_cons.mp hx with h | h
    · subst h
      exact le_trans (le_max_right a x) (le_foldl_max ys (max a x))
    · exact ih (max a y) h

theorem foldl_max_mem (xs : List Int) (a : Int) :
    xs.foldl max a = a ∨ xs.foldl max a ∈ xs := by
  induction xs generalizing a with
  | nil => exact Or.inl rfl
  | cons x xs ih =>
    simp only [List.foldl_cons]
    rcases ih (max a x) with h | h
    · rw [h]
      rcases max_choice a x with hm | hm
      · exact Or.inl hm
      · exact Or.inr (by rw [hm]; exact List.mem_cons_self x xs)
    · exact Or.inr (List.mem_cons_of_mem x h)

theorem pyMax_eq_none_iff (l : List Int) : pyMax l = none ↔ l = [] := by
  cases l <;> simp [pyMax]

theorem pyMax_mem {l : List Int} {M : Int} (h : pyMax l = some M) : M ∈ l := by
  cases l with
  | nil => cases h
  | cons x xs =>
    have hM : xs.foldl max x = M := by simpa [pyMax] using h
    rcases foldl_max_mem xs x with h' | h'
    · have hx : M = x := by rw [← hM, h']
      rw [hx]; exact List.mem_cons_self x xs
    · rw [hM] at h'
      exact List.mem_cons_of_mem x h'

theorem pyMax_le {l : List Int} {M : Int} (h : pyMax l = some M) :
    ∀ x ∈ l, x ≤ M := by
  cases l with
  | nil => cases h
  | cons y ys =>
    have hM : ys.foldl max y = M := by simpa [pyMax] using h
    intro x hx
    rcases List.mem_cons.mp hx with h' | h'
    · rw [h', ← hM]; exact le_foldl_max ys y
    · rw [← hM]; exact foldl_max_le_of_mem ys y h'

theorem pyMax_congr {l₁ l₂ : List Int} (h : ∀ x, x ∈ l₁ ↔ x ∈ l₂) :
    pyMax l₁ = pyMax l₂ := by
  cases hl₁ : l₁ with
  | nil =>
    have : l₂ = [] := by
      cases l₂ with
      | nil => rfl
      | cons y ys => exact absurd ((h y).mpr (List.mem_cons_self y ys)) (by simp [hl₁])
    simp [this]
  | cons x xs =>
    cases hl₂ : l₂ with
    | nil => exact absurd ((h x).mp (by simp [hl₁])) (by simp [hl₂])
    | cons y ys =>
      subst hl₁; subst hl₂
      obtain ⟨M₁, hM₁⟩ : ∃ M, pyMax (x :: xs) = some M := ⟨xs.foldl max x, rfl⟩
      obtain ⟨M₂, hM₂⟩ : ∃ M, pyMax (y :: ys) = some M := ⟨ys.foldl max y, rfl⟩
      rw [hM₁, hM₂]
      have h₁ : M₁ ≤ M₂ := pyMax_le hM₂ M₁ ((h M₁).mp (pyMax_mem hM₁))
      have h₂ : M₂ ≤ M₁ := pyMax_le hM₁ M₂ ((h M₂).mpr (pyMax_mem hM₂))
      exact congrArg some (le_antisymm h₁ h₂)

/-! ### The partial score functions agree with the total ones on
non-empty season lists -/

theorem seasonScore?_eq_some (d : Destination) (seasons : List Season)
    (h : seasons ≠ []) : seasonScore? d seasons = some (seasonScore d seasons) := by
  cases seasons with
  | nil => exact absurd rfl h
  | cons s rest =>
    simp only [seasonScore?, seasonScore, List.map_cons, pyMax]
    rw [List.foldl_map]

theorem compositeScore?_eq_some (d : Destination) (r : UserResponses)
    (h : r.seasons ≠ []) : compositeScore? d r = some (compositeScore d r) := by
  simp [compositeScore?, seasonScore?_eq_some d r.seasons h, compositeScore]

theorem seasonScore_attained (d : Destination) (seasons : List Season)
    (h : seasons ≠ []) : ∃ s ∈ seasons, seasonScore d seasons = d.seasonFactor s := by
  have hmem : seasonScore d seasons ∈ seasons.map d.seasonFactor :=
    pyMax_mem (seasonScore?_eq_some d seasons h)
  obtain ⟨s, hs, hval⟩ := List.mem_map.mp hmem
  exact ⟨s, hs, hval.symm⟩

theorem seasonScore_ge (d : Destination) (seasons : List Season)
    (h : seasons ≠ []) : ∀ s ∈ seasons, d.seasonFactor s ≤ seasonScore d seasons := by
  intro s hs
  exact pyMax_le (seasonScore?_eq_some d seasons h) _ (List.mem_map_of_mem d.seasonFactor hs)

/-! ### Refinement of the exception-aware fold by a pure fold -/

theorem step_eq_pureStep (r : UserResponses) (h : r.seasons ≠ [])
    (acc : Option Destination) (d : Destination) :
    step r (.ok acc) d = .ok (pureStep r acc d) := by
  cases acc with
  | none =>
    by_cases he : isEligible d r <;> simp [step, pureStep, he]
  | some m =>
    by_cases he : isEligible d r
    · simp only [step, pureStep, he, if_pos,
        seasonScore?_eq_some m r.seasons h, seasonScore?_eq_some d r.seasons h]
      by_cases hlt : compositeScore m r < compositeScore d r
      · have : seasonScore d r.seasons * interestScore d r >
            seasonScore m r.seasons * interestScore m r := hlt
        simp [this, hlt]
      · have : ¬ (seasonScore d r.seasons * interestScore d r >
            seasonScore m r.seasons * interestScore m r) := hlt
        simp [this, hlt]
    · simp [step, pureStep, he]

theorem foldl_step_eq (r : UserResponses) (h : r.seasons ≠ [])
    (catalog : List Destination) (acc : Option Destination) :
    catalog.foldl (step r) (.ok acc) = .ok (catalog.foldl (pureStep r) acc) := by
  induction catalog generalizing acc with
  | nil => rfl
  | cons d rest ih =>
    simp only [List.foldl_cons, step_eq_pureStep r h acc d]
    exact ih (pureStep r acc d)

/-! ### Invariants of the pure fold -/

theorem pureFold_from_some (r : UserResponses) (catalog : List Destination)
    (m : Destination) :
    ∃ b, catalog.foldl (pureStep r) (some m) = some b ∧
      (b = m ∨ (b ∈ catalog ∧ isEligible b r)) ∧
      compositeScore m r ≤ compositeScore b r ∧
      ∀ e ∈ catalog, isEligible e r → compositeScore e r ≤ compositeScore b r := by
  induction catalog generalizing m with
  | nil => exact ⟨m, rfl, Or.inl rfl, le_refl _, by simp⟩
  | cons d rest ih =>
    simp only [List.foldl_cons]
    by_cases he : isEligible d r
    · by_cases hlt : compositeScore m r < compositeScore d r
      · have hstep : pureStep r (some m) d = some d := by simp [pureStep, he, hlt]
        rw [hstep]
        obtain ⟨b, hfold, hb, hled, hall⟩ := ih d
        refine ⟨b, hfold, ?_, le_trans (le_of_lt hlt) hled, ?_⟩
        · rcases hb with hb | hb
          · exact Or.inr ⟨hb ▸ List.mem_cons_self d rest, hb ▸ he⟩
          · exact Or.inr ⟨List.mem_cons_of_mem d hb.1, hb.2⟩
        · intro e hmem helig
          rcases List.mem_cons.mp hmem with h' | h'
          · exact h' ▸ hled
          · exact hall e h' helig
      · have hstep : pureStep r (some m) d = some m := by simp [pureStep, he, hlt]
        rw [hstep]
        obtain ⟨b, hfold, hb, hlem, hall⟩ := ih m
        refine ⟨b, hfold, ?_, hlem, ?_⟩
        · rcases hb with hb | hb
          · exact Or.inl hb
          · exact Or.inr ⟨List.mem_cons_of_mem d hb.1, hb.2⟩
        · intro e hmem helig
          rcases List.mem_cons.mp hmem with h' | h'
          · exact h' ▸ le_trans (not_lt.mp hlt) hlem
          · exact hall e h' helig
    · have hstep : pureStep r (some m) d = some m := by simp [pureStep, he]
      rw [hstep]
      obtain ⟨b, hfold, hb, hlem, hall⟩ := ih m
      refine ⟨b, hfold, ?_, hlem, ?_⟩
      · rcases hb with hb | hb
        · exact Or.inl hb
        · exact Or.inr ⟨List.mem_cons_of_mem d hb.1, hb.2⟩
      · intro e hmem helig
        rcases List.mem_cons.mp hmem with h' | h'
        · exact absurd (h' ▸ helig) he
        · exact hall e h' helig

theorem pureFold_from_none (r : UserResponses) (catalog : List Destination) :
    (catalog.foldl (pureStep r) none = none ∧ ∀ d ∈ catalog, ¬ isEligible d r) ∨
    (∃ b, catalog.foldl (pureStep r) none = some b ∧ b ∈ catalog ∧
      isEligible b r ∧
      ∀ e ∈ catalog, isEligible e r → compositeScore e r ≤ compositeScore b r) := by
  induction catalog with
  | nil => exact Or.inl ⟨rfl, by simp⟩
  | cons d rest ih =>
    simp only [List.foldl_cons]
    by_cases he : isEligible d r
    · have hstep : pureStep r none d = some d := by simp [pureStep, he]
      rw [hstep]
      obtain ⟨b, hfold, hb, hled, hall⟩ := pureFold_from_some r rest d
      refine Or.inr ⟨b, hfold, ?_, ?_, ?_⟩
      · rcases hb with hb | hb
        · exact hb ▸ List.mem_cons_self d rest
        · exact List.mem_cons_of_mem d hb.1
      · rcases hb with hb | hb
        · exact hb ▸ he
        · exact hb.2
      · intro e hmem helig
        rcases List.mem_cons.mp hmem with h' | h'
        · exact h' ▸ hled
        · exact hall e h' helig
    · have hstep : pureStep r none d = none := by simp [pureStep, he]
      rw [hstep]
      rcases ih with ⟨hfold, hnone⟩ | ⟨b, hfold, hbmem, hbelig, hall⟩
      · refine Or.inl ⟨hfold, ?_⟩
        intro e hmem
        rcases List.mem_cons.mp hmem with h' | h'
        · exact h' ▸ he
        · exact hnone e h'
      · refine Or.inr ⟨b, hfold, List.mem_cons_of_mem d hbmem, hbelig, ?_⟩
        intro e hmem helig
        rcases List.mem_cons.mp hmem with h' | h'
        · exact absurd (h' ▸ helig) he
        · exact hall e h' helig

theorem pureFold_stable (r : UserResponses) (catalog : List Destination)
    (m : Destination)
    (h : ∀ e ∈ catalog, isEligible e r → compositeScore e r ≤ compositeScore m r) :
    catalog.foldl (pureStep r) (some m) = some m := by
  induction catalog with
  | nil => rfl
  | cons d rest ih =>
    simp only [List.foldl_cons]
    by_cases he : isEligible d r
    · have hle : compositeScore d r ≤ compositeScore m r :=
        h d (List.mem_cons_self d rest) he
      have hstep : pureStep r (some m) d = some m := by
        simp [pureStep, he, not_lt.mpr hle]
      rw [hstep]
      exact ih fun e hmem => h e (List.mem_cons_of_mem d hmem)
    · have hstep : pureStep r (some m) d = some m := by simp [pureStep, he]
      rw [hstep]
      exact ih fun e hmem => h e (List.mem_cons_of_mem d hmem)

/-! ### Behaviour of the raw fold: error propagation, ineligible runs,
empty season lists -/

theorem step_error (r : UserResponses) (d : Destination) (e : Unit) :
    step r (.error e) d = .error e := rfl

theorem foldl_step_error (r : UserResponses) (l : List Destination) (e : Unit) :
    l.foldl (step r) (.error e) = .error e := by
  induction l with
  | nil => rfl
  | cons d rest ih => simpa only [List.foldl_cons, step_error] using ih

theorem foldl_step_none_of_no_elig (r : UserResponses) (l : List Destination)
    (h : ∀ d ∈ l, ¬ isEligible d r) : l.foldl (step r) (.ok none) = .ok none := by
  induction l with
  | nil => rfl
  | cons d rest ih =>
    have hd : ¬ isEligible d r := h d (List.mem_cons_self d rest)
    have hstep : step r (.ok none) d = .ok none := by simp [step, hd]
    simp only [List.foldl_cons, hstep]
    exact ih fun e he => h e (List.mem_cons_of_mem d he)

theorem step_some_error_of_empty_seasons (r : UserResponses)
    (hs : r.seasons = []) (m d : Destination) (he : isEligible d r) :
    step r (.ok (some m)) d = .error () := by
  have h1 : seasonScore? m r.seasons = none := by rw [hs]; rfl
  have h2 : seasonScore? d r.seasons = none := by rw [hs]; rfl
  simp [step, he, h1, h2]

theorem foldl_step_from_some_of_empty_seasons (r : UserResponses)
    (hs : r.seasons = []) (l : List Destination) (m : Destination) :
    l.foldl (step r) (.ok (some m)) = .error () ∨
    ∃ m', l.foldl (step r) (.ok (some m)) = .ok (some m') := by
  induction l generalizing m with
  | nil => exact Or.inr ⟨m, rfl⟩
  | cons d rest ih =>
    simp only [List.foldl_cons]
    by_cases he : isEligible d r
    · rw [step_some_error_of_empty_seasons r hs m d he]
      exact Or.inl (foldl_step_error r rest ())
    · have hstep : step r (.ok (some m)) d = .ok (some m) := by simp [step, he]
      rw [hstep]
      exact ih m

theorem validCost_length (s : String) (h : validCost s) :
    s.length = costOrd s + 1 := by
  rcases h with h | h | h <;> rw [h] <;> decide

/-! ### The matcher only looks at the continents and seasons through
membership -/

theorem isEligible_congr (d : Destination) (r : UserResponses)
    (c' : List Continent) (s' : List Season)
    (hc : ∀ x, x ∈ c' ↔ x ∈ r.continents) :
    isEligible d { r with continents := c', seasons := s' } ↔ isEligible d r := by
  unfold isEligible
  constructor
  · rintro ⟨h1, h2, h3, h4, h5⟩
    exact ⟨(hc _).mp h1, h2, h3, h4, h5⟩
  · rintro ⟨h1, h2, h3, h4, h5⟩
    exact ⟨(hc _).mpr h1, h2, h3, h4, h5⟩

theorem seasonScore?_congr (m : Destination) (s₁ s₂ : List Season)
    (hs : ∀ x, x ∈ s₁ ↔ x ∈ s₂) :
    seasonScore? m s₁ = seasonScore? m s₂ := by
  apply pyMax_congr
  intro x
  simp only [List.mem_map]
  constructor
  · rintro ⟨s, hmem, hval⟩; exact ⟨s, (hs s).mp hmem, hval⟩
  · rintro ⟨s, hmem, hval⟩; exact ⟨s, (hs s).mpr hmem, hval⟩

theorem step_congr (r : UserResponses) (c' : List Continent) (s' : List Season)
    (hc : ∀ x, x ∈ c' ↔ x ∈ r.continents) (hs : ∀ x, x ∈ s' ↔ x ∈ r.seasons)
    (acc : Except Unit (Option Destination)) (d : Destination) :
    step { r with continents := c', seasons := s' } acc d = step r acc d := by
  have helig : ∀ d', isEligible d' { r with continents := c', seasons := s' } ↔
      isEligible d' r := fun d' => isEligible_congr d' r c' s' hc
  cases acc with
  | error e => rfl
  | ok acc =>
    cases acc with
    | none =>
      by_cases he : isEligible d r
      · simp [step, he, (helig d).mpr he]
      · have hne : ¬ isEligible d { r with continents := c', seasons := s' } :=
          fun h => he ((helig d).mp h)
        simp [step, he, hne]
    | some m =>
      by_cases he : isEligible d r
      · have e1 : seasonScore? m s' = seasonScore? m r.seasons :=
          seasonScore?_congr m s' r.seasons hs
        have e2 : seasonScore? d s' = seasonScore? d r.seasons :=
          seasonScore?_congr d s' r.seasons hs
        simp only [step, if_pos ((helig d).mpr he), if_pos he]
        rw [show seasonScore? m ({ r with continents := c', seasons := s' } :
            UserResponses).seasons = seasonScore? m r.seasons from e1,
          show seasonScore? d ({ r with continents := c', seasons := s' } :
            UserResponses).seasons = seasonScore? d r.seasons from e2]
        rfl
      · have hne : ¬ isEligible d { r with continents := c', seasons := s' } :=
          fun h => he ((helig d).mp h)
        simp [step, he, hne]

theorem foldl_step_congr (r : UserResponses) (c' : List Continent)
    (s' : List Season) (hc : ∀ x, x ∈ c' ↔ x ∈ r.continents)
    (hs : ∀ x, x ∈ s' ↔ x ∈ r.seasons) (l : List Destination)
    (acc : Except Unit (Option Destination)) :
    l.foldl (step { r with continents := c', seasons := s' }) acc =
    l.foldl (step r) acc := by
  induction l generalizing acc with
  | nil => rfl
  | cons d rest ih =>
    simp only [List.foldl_cons, step_congr r c' s' hc hs acc d]
    exact ih (step r acc d)

theorem foldl_step_from_none_of_empty_seasons (r : UserResponses)
    (hs : r.seasons = []) (l : List Destination) :
    l.foldl (step r) (.ok none) = .error () ∨
    l.foldl (step r) (.ok none) = .ok none ∨
    ∃ m, l.foldl (step r) (.ok none) = .ok (some m) := by
  induction l with
  | nil => exact Or.inr (Or.inl rfl)
  | cons d rest ih =>
    simp only [List.foldl_cons]
    by_cases he : isEligible d r
    · have hstep : step r (.ok none) d = .ok (some d) := by simp [step, he]
      rw [hstep]
      rcases foldl_step_from_some_of_empty_seasons r hs rest d with h | ⟨m', h⟩
      · exact Or.inl h
      · exact Or.inr (Or.inr ⟨m', h⟩)
    · have hstep : step r (.ok none) d = .ok none := by simp [step, he]
      rw [hstep]
      exact ih

/-! ## The claims -/

/-- C1 — For every catalog and well-formed responses the matcher
returns an eligible destination whose composite score is greatest among
the catalog's eligible entries, and returns the no-match marker exactly
when the catalog has no eligible entry. -/
theorem matcher_selects_best (catalog : List Destination) (r : UserResponses)
    (hwf : WellFormed r) :
    (∃ b, selectDestination catalog r = .ok (some b) ∧ b ∈ catalog ∧
        isEligible b r ∧
        ∀ e ∈ catalog, isEligible e r →
          compositeScore e r ≤ compositeScore b r) ∨
    (selectDestination catalog r = .ok none ∧
        ∀ d ∈ catalog, ¬ isEligible d r) := by
  unfold selectDestination
  rw [foldl_step_eq r hwf.2 catalog none]
  rcases pureFold_from_none r catalog with ⟨hfold, hnone⟩ |
    ⟨b, hfold, hmem, helig, hall⟩
  · exact Or.inr ⟨by rw [hfold], hnone⟩
  · exact Or.inl ⟨b, by rw [hfold], hmem, helig, hall⟩

theorem matcher_selects_best_witness :
    WellFormed rBase ∧
    ((∃ b, selectDestination [dAlpha, dGamma] rBase = .ok (some b) ∧
        b ∈ [dAlpha, dGamma] ∧ isEligible b rBase ∧
        ∀ e ∈ [dAlpha, dGamma], isEligible e rBase →
          compositeScore e rBase ≤ compositeScore b rBase) ∨
     (selectDestination [dAlpha, dGamma] rBase = .ok none ∧
        ∀ d ∈ [dAlpha, dGamma], ¬ isEligible d rBase)) :=
  ⟨by decide, matcher_selects_best [dAlpha, dGamma] rBase (by decide)⟩

/-- C6 — When every destination fails some filter (in particular when
the catalog is empty) the matcher evaluates to the explicit no-match
marker `Except.ok none`: a normal result, not the `Except.error` that
models an exception. -/
theorem no_eligible_yields_no_match (catalog : List Destination)
    (r : UserResponses) (h : ∀ d ∈ catalog, ¬ isEligible d r) :
    selectDestination catalog r = .ok none ∧
    selectDestination ([] : List Destination) r = .ok none :=
  ⟨foldl_step_none_of_no_elig r catalog h, rfl⟩

theorem no_eligible_yields_no_match_witness :
    (∀ d ∈ [dGamma], ¬ isEligible d rBase) ∧
    selectDestination [dGamma] rBase = .ok none ∧
    selectDestination ([] : List Destination) rBase = .ok none :=
  ⟨by decide, no_eligible_yields_no_match [dGamma] rBase (by decide)⟩

/-- C9 — Invariant of the single-pass fold: running the loop over any
prefix of the catalog (that is, over any list of destinations) leaves the
accumulator either `None` or an eligible destination drawn from that
prefix; hence every non-`None` final result is an eligible catalog
member. -/
theorem accumulator_invariant (p : List Destination) (r : UserResponses)
    (h : r.seasons ≠ []) :
    selectDestination p r = .ok none ∨
    ∃ b, selectDestination p r = .ok (some b) ∧ b ∈ p ∧ isEligible b r := by
  unfold selectDestination
  rw [foldl_step_eq r h p none]
  rcases pureFold_from_none r p with ⟨hfold, _⟩ | ⟨b, hfold, hmem, helig, _⟩
  · exact Or.inl (by rw [hfold])
  · exact Or.inr ⟨b, by rw [hfold], hmem, helig⟩

theorem accumulator_invariant_witness :
    rBase.seasons ≠ [] ∧
    (selectDestination [dAlpha] rBase = .ok none ∨
      ∃ b, selectDestination [dAlpha] rBase = .ok (some b) ∧
        b ∈ [dAlpha] ∧ isEligible b rBase) :=
  ⟨by decide, accumulator_invariant [dAlpha] rBase (by decide)⟩

/-- C7 — With an empty continent selection nothing passes the
continent filter, so the matcher yields the no-match marker; with an
empty season selection the season maximum is undefined, and the run
aborts with the modelled `ValueError` as soon as a second eligible
candidate forces a score comparison. -/
theorem empty_selection_edge_cases :
    (∀ (catalog : List Destination) (r : UserResponses), r.continents = [] →
        selectDestination catalog r = .ok none) ∧
    (∀ (l1 l2 l3 : List Destination) (d1 d2 : Destination) (r : UserResponses),
        r.seasons = [] → isEligible d1 r → isEligible d2 r →
        selectDestination (l1 ++ d1 :: l2 ++ d2 :: l3) r = .error ()) := by
  constructor
  · intro catalog r hc
    apply foldl_step_none_of_no_elig
    intro d _ helig
    rcases helig with ⟨h1, -⟩
    rw [hc] at h1
    exact (List.not_mem_nil _ h1)
  · intro l1 l2 l3 d1 d2 r hs h1 h2
    unfold selectDestination
    simp only [List.foldl_append, List.foldl_cons]
    rcases foldl_step_from_none_of_empty_seasons r hs l1 with h | h | ⟨m, h⟩
    · rw [h, step_error r d1 (), foldl_step_error r l2 (), step_error r d2 (),
        foldl_step_error r l3 ()]
    · have hstep : step r (.ok none) d1 = .ok (some d1) := by simp [step, h1]
      rw [h, hstep]
      rcases foldl_step_from_some_of_empty_seasons r hs l2 d1 with h' | ⟨m', h'⟩
      · rw [h', step_error r d2 (), foldl_step_error r l3 ()]
      · rw [h', step_some_error_of_empty_seasons r hs m' d2 h2,
          foldl_step_error r l3 ()]
    · rw [h, step_some_error_of_empty_seasons r hs m d1 h1,
        foldl_step_error r l2 (), step_error r d2 (),
        foldl_step_error r l3 ()]

theorem empty_selection_edge_cases_witness :
    (({ rBase with continents := [] } : UserResponses).continents = [] ∧
      selectDestination [dAlpha] { rBase with continents := [] } = .ok none) ∧
    (({ rBase with seasons := [] } : UserResponses).seasons = [] ∧
      isEligible dAlpha { rBase with seasons := [] } ∧
      isEligible dBeta { rBase with seasons := [] } ∧
      selectDestination ([] ++ dAlpha :: [] ++ dBeta :: [])
        { rBase with seasons := [] } = .error ()) :=
  ⟨⟨rfl, empty_selection_edge_cases.1 [dAlpha] { rBase with continents := [] }
      rfl⟩,
   ⟨rfl, by decide, by decide,
    empty_selection_edge_cases.2 [] [] [] dAlpha dBeta
      { rBase with seasons := [] } rfl (by decide) (by decide)⟩⟩

/-- C10 — The matcher's result only depends on the continent and
season selections through membership, so duplicate entries in either
multi-select answer (which `input_multiple_numeric_options` accepts, for
example `1,1`) never change the result. -/
theorem duplicate_insensitivity (catalog : List Destination)
    (r : UserResponses) (c' : List Continent) (s' : List Season)
    (hc : ∀ x, x ∈ c' ↔ x ∈ r.continents)
    (hs : ∀ x, x ∈ s' ↔ x ∈ r.seasons) :
    selectDestination catalog { r with continents := c', seasons := s' } =
      selectDestination catalog r :=
  foldl_step_congr r c' s' hc hs catalog (.ok none)

theorem duplicate_insensitivity_witness :
    (∀ x, x ∈ ([.europe, .europe] : List Continent) ↔ x ∈ rBase.continents) ∧
    (∀ x, x ∈ ([.summer, .summer] : List Season) ↔ x ∈ rBase.seasons) ∧
    selectDestination [dAlpha, dBeta]
        { rBase with continents := [.europe, .europe],
                     seasons := [.summer, .summer] } =
      selectDestination [dAlpha, dBeta] rBase :=
  ⟨by decide, by decide,
   duplicate_insensitivity [dAlpha, dBeta] rBase [.europe, .europe]
     [.summer, .summer] (by decide) (by decide)⟩

/-- C2 — For a catalog record (climate stored lowercase-normalized,
cost one of the offered tiers) and responses whose cost answer is an
offered tier, the destination passes the filter stage exactly when the
five conditions hold: continent membership, crime ordinal at most the
tolerance in the order Low < Average < High, cost tier at most the
tolerance in the fixed cheapest-to-dearest order, kid-friendliness when
travelling with kids, and case-insensitively equal climates. -/
theorem eligibility_characterization (d : Destination) (r : UserResponses)
    (hdClimate : strLower d.climate = d.climate)
    (hdCost : validCost d.cost) (hrCost : validCost r.cost) :
    isEligible d r ↔
      (d.continent ∈ r.continents ∧
       crimeIndex d.crimeLevel ≤ crimeIndex r.crime ∧
       costOrd d.cost ≤ costOrd r.cost ∧
       (r.kids = true → d.kidFriendly = true) ∧
       strLower r.climate = strLower d.climate) := by
  have hcost : (d.cost.length ≤ r.cost.length) ↔
      (costOrd d.cost ≤ costOrd r.cost) := by
    rcases hdCost with h | h | h <;> rcases hrCost with h' | h' | h' <;>
      rw [h, h'] <;> decide
  have hclim : (strLower r.climate = d.climate) ↔
      (strLower r.climate = strLower d.climate) := by
    rw [hdClimate]
  unfold isEligible
  rw [hcost, hclim]

theorem eligibility_characterization_witness :
    (strLower dAlpha.climate = dAlpha.climate ∧ validCost dAlpha.cost ∧
      validCost rBase.cost) ∧
    (isEligible dAlpha rBase ↔
      (dAlpha.continent ∈ rBase.continents ∧
       crimeIndex dAlpha.crimeLevel ≤ crimeIndex rBase.crime ∧
       costOrd dAlpha.cost ≤ costOrd rBase.cost ∧
       (rBase.kids = true → dAlpha.kidFriendly = true) ∧
       strLower rBase.climate = strLower dAlpha.climate)) :=
  ⟨⟨by decide, by decide, by decide⟩,
   eligibility_characterization dAlpha rBase (by decide) (by decide)
     (by decide)⟩

/-- C5 — Filter monotonicity: an eligible destination stays eligible
after any single relaxation of the responses — raising the crime
tolerance, raising the cost tolerance to a dearer valid tier, adding a
continent, adding a season, or turning off travelling-with-kids. -/
theorem filter_monotonicity (d : Destination) (r : UserResponses) :
    (∀ c, crimeIndex r.crime ≤ crimeIndex c → isEligible d r →
        isEligible d { r with crime := c }) ∧
    (∀ s, validCost r.cost → validCost s → costOrd r.cost ≤ costOrd s →
        isEligible d r → isEligible d { r with cost := s }) ∧
    (∀ c, isEligible d r → isEligible d { r with continents := c :: r.continents }) ∧
    (∀ s, isEligible d r → isEligible d { r with seasons := s :: r.seasons }) ∧
    (isEligible d r → isEligible d { r with kids := false }) := by
  refine ⟨?_, ?_, ?_, ?_, ?_⟩
  · intro c hc h
    unfold isEligible at h ⊢
    obtain ⟨h1, h2, h3, h4, h5⟩ := h
    exact ⟨h1, le_trans h2 hc, h3, h4, h5⟩
  · intro s hv hv' hord h
    unfold isEligible at h ⊢
    obtain ⟨h1, h2, h3, h4, h5⟩ := h
    refine ⟨h1, h2, ?_, h4, h5⟩
    calc d.cost.length ≤ r.cost.length := h3
      _ = costOrd r.cost + 1 := validCost_length r.cost hv
      _ ≤ costOrd s + 1 := Nat.add_le_add_right hord 1
      _ = s.length := (validCost_length s hv').symm
  · intro c h
    unfold isEligible at h ⊢
    obtain ⟨h1, h2, h3, h4, h5⟩ := h
    exact ⟨List.mem_cons_of_mem c h1, h2, h3, h4, h5⟩
  · intro s h
    unfold isEligible at h ⊢
    obtain ⟨h1, h2, h3, h4, h5⟩ := h
    exact ⟨h1, h2, h3, h4, h5⟩
  · intro h
    unfold isEligible at h ⊢
    obtain ⟨h1, h2, h3, h4, h5⟩ := h
    exact ⟨h1, h2, h3, fun hk => absurd hk Bool.false_ne_true, h5⟩

theorem filter_monotonicity_witness :
    (crimeIndex rBase.crime ≤ crimeIndex Crime.high ∧ validCost rBase.cost ∧
      validCost "$$$" ∧ costOrd rBase.cost ≤ costOrd "$$$" ∧
      isEligible dAlpha rBase) ∧
    isEligible dAlpha { rBase with crime := .high } ∧
    isEligible dAlpha { rBase with cost := "$$$" } ∧
    isEligible dAlpha { rBase with continents := .asia :: rBase.continents } ∧
    isEligible dAlpha { rBase with seasons := .spring :: rBase.seasons } ∧
    isEligible dAlpha { rBase with kids := false } :=
  ⟨⟨by decide, by decide, by decide, by decide, by decide⟩,
   (filter_monotonicity dAlpha rBase).1 .high (by decide) (by decide),
   (filter_monotonicity dAlpha rBase).2.1 "$$$" (by decide) (by decide)
     (by decide) (by decide),
   (filter_monotonicity dAlpha rBase).2.2.1 .asia (by decide),
   (filter_monotonicity dAlpha rBase).2.2.2.1 .spring (by decide),
   (filter_monotonicity dAlpha rBase).2.2.2.2 (by decide)⟩

/-- C3 — The composite score is the season maximum times the
interest dot product: the season score is attained on, and bounds, the
selected seasons; the interest score is the sum over every interest key
of the user affinity times the destination affinity; and the loop
compares candidates by exactly this product under the signed order on
`Int`, replacing the incumbent only on a strictly greater product. -/
theorem composite_score_semantics (d m : Destination) (r : UserResponses)
    (h : r.seasons ≠ []) :
    (∃ s ∈ r.seasons, seasonScore d r.seasons = d.seasonFactor s) ∧
    (∀ s ∈ r.seasons, d.seasonFactor s ≤ seasonScore d r.seasons) ∧
    (interestScore d r = ∑ k : InterestKey, r.interests k * d.interestScore k) ∧
    (compositeScore d r = seasonScore d r.seasons * interestScore d r) ∧
    (compositeScore? d r = some (compositeScore d r)) ∧
    (isEligible d r → step r (.ok (some m)) d =
        .ok (some (if compositeScore m r < compositeScore d r then d else m))) := by
  refine ⟨seasonScore_attained d r.seasons h, seasonScore_ge d r.seasons h,
    rfl, rfl, compositeScore?_eq_some d r h, ?_⟩
  intro he
  rw [step_eq_pureStep r h (some m) d]
  simp only [pureStep, if_pos he]
  rw [apply_ite some]

theorem composite_score_semantics_witness :
    rBase.seasons ≠ [] ∧ isEligible dAlpha rBase ∧
    (∃ s ∈ rBase.seasons, seasonScore dAlpha rBase.seasons =
        dAlpha.seasonFactor s) ∧
    (∀ s ∈ rBase.seasons,
        dAlpha.seasonFactor s ≤ seasonScore dAlpha rBase.seasons) ∧
    (interestScore dAlpha rBase =
        ∑ k : InterestKey, rBase.interests k * dAlpha.interestScore k) ∧
    (compositeScore dAlpha rBase =
        seasonScore dAlpha rBase.seasons * interestScore dAlpha rBase) ∧
    (compositeScore? dAlpha rBase = some (compositeScore dAlpha rBase)) ∧
    step rBase (.ok (some dBeta)) dAlpha =
      .ok (some (if compositeScore dBeta rBase < compositeScore dAlpha rBase
        then dAlpha else dBeta)) := by
  have hall := composite_score_semantics dAlpha dBeta rBase (by decide)
  exact ⟨by decide, by decide, hall.1, hall.2.1, hall.2.2.1, hall.2.2.2.1,
    hall.2.2.2.2.1, hall.2.2.2.2.2 (by decide)⟩

/-- C4 — First-seen tie-break: when two eligible destinations have
the same composite score and that score is maximal in the catalog, the
selected destination lies in the part of the catalog up to and including
the earlier of the two, so the later one is never returned. -/
theorem tie_earlier_wins (l1 l2 l3 : List Destination) (d1 d2 : Destination)
    (r : UserResponses) (hse : r.seasons ≠ [])
    (h1 : isEligible d1 r) (h2 : isEligible d2 r)
    (heq : compositeScore d1 r = compositeScore d2 r)
    (hmax : ∀ e ∈ l1 ++ d1 :: l2 ++ d2 :: l3, isEligible e r →
        compositeScore e r ≤ compositeScore d1 r)
    (hne : d2 ∉ l1 ++ [d1]) :
    ∃ b, selectDestination (l1 ++ d1 :: l2 ++ d2 :: l3) r = .ok (some b) ∧
      b ∈ l1 ++ [d1] ∧ b ≠ d2 ∧ isEligible b r ∧
      compositeScore b r = compositeScore d1 r := by
  have hsplit : l1 ++ d1 :: l2 ++ d2 :: l3 =
      (l1 ++ [d1]) ++ (l2 ++ d2 :: l3) := by simp
  unfold selectDestination
  rw [hsplit, List.foldl_append, foldl_step_eq r hse (l1 ++ [d1]) none]
  rcases pureFold_from_none r (l1 ++ [d1]) with ⟨_, hnone⟩ |
    ⟨b, hfold, hmem, helig, hall⟩
  · exact absurd h1 (hnone d1 (by simp))
  · have hb1 : compositeScore d1 r ≤ compositeScore b r :=
      hall d1 (by simp) h1
    have hb2 : compositeScore b r ≤ compositeScore d1 r :=
      hmax b (by rw [hsplit]; exact List.mem_append_left _ hmem) helig
    have hbeq : compositeScore b r = compositeScore d1 r :=
      le_antisymm hb2 hb1
    have hstab : (l2 ++ d2 :: l3).foldl (pureStep r) (some b) = some b := by
      apply pureFold_stable
      intro e he helig'
      have hemem : e ∈ l1 ++ d1 :: l2 ++ d2 :: l3 := by
        rw [hsplit]; exact List.mem_append_right _ he
      rw [hbeq]
      exact hmax e hemem helig'
    rw [hfold, foldl_step_eq r hse (l2 ++ d2 :: l3) (some b), hstab]
    exact ⟨b, rfl, hmem, fun hbd2 => hne (hbd2 ▸ hmem), helig, hbeq⟩

theorem tie_earlier_wins_witness :
    (rBase.seasons ≠ [] ∧ isEligible dAlpha rBase ∧ isEligible dBeta rBase ∧
      compositeScore dAlpha rBase = compositeScore dBeta rBase ∧
      (∀ e ∈ [] ++ dAlpha :: [] ++ dBeta :: [], isEligible e rBase →
        compositeScore e rBase ≤ compositeScore dAlpha rBase) ∧
      dBeta ∉ [] ++ [dAlpha]) ∧
    ∃ b, selectDestination ([] ++ dAlpha :: [] ++ dBeta :: []) rBase =
        .ok (some b) ∧
      b ∈ [] ++ [dAlpha] ∧ b ≠ dBeta ∧ isEligible b rBase ∧
      compositeScore b rBase = compositeScore dAlpha rBase :=
  ⟨⟨by decide, by decide, by decide, by decide, by decide, by decide⟩,
   tie_earlier_wins [] [] [] dAlpha dBeta rBase (by decide) (by decide)
     (by decide) (by decide) (by decide) (by decide)⟩

/-- C8 counterexample — On a no-match run the printing code at
travel.py lines 238–241 executes `print(match)` with `match = None`,
showing the raw rendering `"None"` of the internal sentinel rather than a
clear "no destination matched your preferences" message. -/
theorem no_match_renders_raw_sentinel :
    selectDestination [] rBase = .ok none ∧
    renderResult none = "None" ∧
    renderResult none ≠ "no destination matched your preferences" :=
  ⟨rfl, rfl, by decide⟩

/-- C8 amended — On well-formed responses the matcher never raises:
the user-visible output is either the selected destination's display name
or the text `"None"`, the raw rendering of the no-match sentinel. -/
theorem user_visible_output (catalog : List Destination) (r : UserResponses)
    (h : r.seasons ≠ []) :
    ∃ res, selectDestination catalog r = .ok res ∧
      ((res = none ∧ renderResult res = "None") ∨
        ∃ b, res = some b ∧ b ∈ catalog ∧ renderResult res = b.name) := by
  unfold selectDestination
  rw [foldl_step_eq r h catalog none]
  rcases pureFold_from_none r catalog with ⟨hfold, _⟩ | ⟨b, hfold, hmem, _, _⟩
  · exact ⟨none, by rw [hfold], Or.inl ⟨rfl, rfl⟩⟩
  · exact ⟨some b, by rw [hfold], Or.inr ⟨b, rfl, hmem, rfl⟩⟩

theorem user_visible_output_witness :
    rBase.seasons ≠ [] ∧
    ∃ res, selectDestination [dAlpha] rBase = .ok res ∧
      ((res = none ∧ renderResult res = "None") ∨
        ∃ b, res = some b ∧ b ∈ [dAlpha] ∧ renderResult res = b.name) :=
  ⟨by decide, user_visible_output [dAlpha] rBase (by decide)⟩

end Travel
